import Mathlib

/-!
Verification of the header-download engine of this repository
(`turbo/stages/headerdownload`).

The data types (`Header` fields used by the engine, `Anchor`/`Tip`,
`TipItem`, `ChainSegment`, `Penalty`, `PeerPenalty`, `HeaderDownload`) and
the tip-limiter comparison `TipItem.Less` are embedded from the source
declarations in `turbo/stages/headerdownload`.  The algorithm bodies
(`HandleHeadersMsg`, `Prepend`, `addHeaderAsTip`, `addHardCodedTip`) are not
part of the source tree; they are modelled from the specification
(sections 4.2, 4.4, 8) and checked against the behaviours pinned down by
`turbo/stages/headerdownload/header_test.go`.

Modelling conventions:
* a 32-byte Keccak hash is idealised as an injective encoding of the header
  fields into `Nat` (the engine relies on the hash only through equality,
  byte-wise comparison, and derivation from the header contents);
* `uint256.Int` cumulative difficulties are modelled as `Nat`; all values
  appearing in the engine's scenarios are far below `2^256`, so the wrap
  at `2^256` never fires and is omitted;
* Go maps keyed by hash are modelled as association lists with
  first-match lookup (insertion prepends, which matches overwrite
  semantics for lookup);
* fallible Go functions returning `error` are modelled with `Except`.
-/

namespace HeaderDL

/-- The consensus-layer header fields the engine reads
(`number`, `parent_hash`, `difficulty`, `timestamp`, `uncle_hash`,
`nonce`, `extra`); from `core/types.Header` as used by the
`headerdownload` package.  Hashes are `Nat` (see module comment). -/
structure Header where
  number : Nat
  parentHash : Nat
  difficulty : Nat
  timestamp : Nat
  uncleHash : Nat
  nonce : Nat
  extra : Nat
deriving DecidableEq, Repr

/-- The derived header hash: an injective `Nat` encoding of the header
contents, idealising Keccak-256 (collision-free). -/
def Header.hash (h : Header) : Nat :=
  Nat.pair h.parentHash (Nat.pair h.number (Nat.pair h.difficulty
    (Nat.pair h.timestamp (Nat.pair h.uncleHash (Nat.pair h.nonce h.extra)))))

/-- Penalty taxonomy, from the `Penalty` constants in
`turbo/stages/headerdownload`. -/
inductive Penalty where
  | NoPenalty
  | BadBlockPenalty
  | DuplicateHeaderPenalty
  | WrongChildBlockHeightPenalty
  | WrongChildDifficultyPenalty
  | InvalidSealPenalty
  | TooFarFuturePenalty
  | TooFarPastPenalty
deriving DecidableEq, Repr

/-- A penalty report attached to a peer, from `PeerPenalty` in the source
(the underlying `err` field is dropped: no claim mentions it). -/
structure PeerPenalty where
  peerHandle : Nat
  penalty : Penalty
deriving DecidableEq, Repr

/-- A contiguous sequence of headers; element 0 is the oldest (the anchor
side).  From `ChainSegment` in the source. -/
structure ChainSegment where
  headers : List Header
deriving DecidableEq, Repr

/-- `CalcDifficultyFunc` from the source: arguments are child timestamp,
parent timestamp, parent difficulty, parent number, parent hash, parent
uncle hash. -/
def CalcDifficultyFunc : Type :=
  Nat → Nat → Nat → Nat → Nat → Nat → Nat

/-- A tip record, from `Tip` in the source (the test accesses the fields
`cumulativeDifficulty` and `anchorParent`). -/
structure Tip where
  anchorParent : Nat
  cumulativeDifficulty : Nat
  timestamp : Nat
  difficulty : Nat
  blockHeight : Nat
  uncleHash : Nat
  noPrepend : Bool
deriving DecidableEq, Repr

/-- Element of the tip limiter, from `TipItem` in the source. -/
structure TipItem where
  tipHash : Nat
  cumulativeDifficulty : Nat
deriving DecidableEq, Repr

/-- `TipItem.Less` from the source: order by cumulative difficulty, with
the (unique) tip hash breaking ties byte-wise; byte-wise comparison of
fixed-width big-endian hashes is `Nat` comparison. -/
def TipItem.Less (a b : TipItem) : Bool :=
  if a.cumulativeDifficulty = b.cumulativeDifficulty then
    decide (a.tipHash < b.tipHash)
  else
    decide (a.cumulativeDifficulty < b.cumulativeDifficulty)

/-- The engine state, from `HeaderDownload` in the source, restricted to
the fields the verified operations touch: the bad-header set, the tip
index `tips` (hash → tip), and the two consensus callbacks.  Sets and
maps are association structures over `Nat` hashes. -/
structure HeaderDownload where
  badHeaders : List Nat
  tips : List (Nat × Tip)
  calcDifficulty : CalcDifficultyFunc
  verifySeal : Header → Bool

/-- `NewHeaderDownload` from the source: fresh engine state with empty
bad-header set and no tips. -/
def NewHeaderDownload (calcDifficulty : CalcDifficultyFunc)
    (verifySeal : Header → Bool) : HeaderDownload :=
  { badHeaders := []
    tips := []
    calcDifficulty := calcDifficulty
    verifySeal := verifySeal }

/-- Modelled from the spec: the classifier's sort order — "Sort the input
by block height descending, breaking ties by hash" (spec section 4.2).
`hdrBefore x y` holds when `x` sorts no later than `y`. -/
def hdrBefore (x y : Header) : Prop :=
  y.number < x.number ∨ (x.number = y.number ∧ x.hash ≤ y.hash)

instance : DecidableRel hdrBefore := fun x y => by
  unfold hdrBefore; infer_instance

instance : IsTotal Header hdrBefore where
  total x y := by
    unfold hdrBefore
    rcases Nat.lt_trichotomy x.number y.number with h | h | h
    · exact Or.inr (Or.inl h)
    · rcases Nat.le_total x.hash y.hash with h' | h'
      · exact Or.inl (Or.inr ⟨h, h'⟩)
      · exact Or.inr (Or.inr ⟨h.symm, h'⟩)
    · exact Or.inl (Or.inl h)

instance : IsTrans Header hdrBefore where
  trans x y z hxy hyz := by
    unfold hdrBefore at *
    rcases hxy with h1 | ⟨e1, l1⟩
    · rcases hyz with h2 | ⟨e2, _⟩
      · exact Or.inl (Nat.lt_trans h2 h1)
      · exact Or.inl (e2 ▸ h1)
    · rcases hyz with h2 | ⟨e2, l2⟩
      · exact Or.inl (e1 ▸ h2)
      · exact Or.inr ⟨e1.trans e2, Nat.le_trans l1 l2⟩

instance : IsAntisymm Header hdrBefore where
  antisymm x y hxy hyx := by
    unfold hdrBefore at *
    rcases hxy with h1 | ⟨e1, l1⟩
    · rcases hyx with h2 | ⟨e2, _⟩
      · exact absurd h1 (Nat.lt_asymm h2)
      · exact absurd (e2 ▸ h1) (Nat.lt_irrefl _)
    · rcases hyx with h2 | ⟨_, l2⟩
      · exact absurd (e1 ▸ h2) (Nat.lt_irrefl _)
      · have hh : x.hash = y.hash := Nat.le_antisymm l1 l2
        unfold Header.hash at hh
        simp only [Nat.pair_eq_pair] at hh
        obtain ⟨a1, a2, a3, a4, a5, a6, a7⟩ := hh
        cases x; cases y; simp_all

/-- Modelled from the spec: sort the input by block height descending,
breaking ties by hash (spec section 4.2). -/
def sortHeaders (msg : List Header) : List Header :=
  List.insertionSort hdrBefore msg

/-- Modelled from the spec: "If any header hash appears more than once in
the input" (spec section 4.2). -/
def hasDuplicateHashes : List Header → Bool
  | [] => false
  | h :: rest => rest.any (fun x => x.hash == h.hash) || hasDuplicateHashes rest

/-- Modelled from the spec: "If any header's hash is in the engine's
bad-header set" (spec section 4.2). -/
def hasBadHeader (bad : List Nat) (l : List Header) : Bool :=
  l.any (fun h => bad.contains h.hash)

/-- Modelled from the spec: the consensus checks of the classifier walk
(spec section 4.2) — for every header `c` whose parent `p` is in the
batch, require `c.number = p.number + 1` (else `WrongChildBlockHeight`)
and `c.difficulty = calc_difficulty(c.timestamp, p.timestamp,
p.difficulty, p.number, p.hash, p.uncle_hash)` (else
`WrongChildDifficulty`).  The walk is over the sorted list,
youngest-first; `all` is the whole batch. -/
def checkLinks (cdf : CalcDifficultyFunc) (all : List Header) :
    List Header → Option Penalty
  | [] => none
  | c :: rest =>
    match all.find? (fun p => p.hash == c.parentHash) with
    | none => checkLinks cdf all rest
    | some p =>
      if c.number = p.number + 1 then
        if c.difficulty =
            cdf c.timestamp p.timestamp p.difficulty p.number p.hash p.uncleHash then
          checkLinks cdf all rest
        else some Penalty.WrongChildDifficultyPenalty
      else some Penalty.WrongChildBlockHeightPenalty

/-- Modelled from the spec: the root of the in-batch parent chain of a
header — follow `parent_hash` linkage inside the batch until the parent
is absent ("a header with no parent in the batch ends the current
segment", spec section 4.2).  Heights strictly decrease along validated
links, so `fuel = |batch|` suffices. -/
def rootOf (all : List Header) : Nat → Header → Header
  | 0, h => h
  | fuel + 1, h =>
    match all.find? (fun p => p.hash == h.parentHash) with
    | some p => rootOf all fuel p
    | none => h

/-- Modelled from the spec: group the sorted batch into chain segments —
one segment per linkage component (a header with no child-linkage starts
a new segment; disjoint branches yield multiple segments; branching over
a shared root stays in one segment carrier, spec sections 4.2 and 8).
Each segment lists its headers oldest-first, the component root first. -/
def segmentsOf (sorted : List Header) : List ChainSegment :=
  let n := sorted.length
  let roots := (sorted.map (rootOf sorted n)).dedup
  roots.map (fun r =>
    ⟨(sorted.filter (fun h => rootOf sorted n h == r)).reverse⟩)

/-- Modelled from the spec: the classifier body applied to the already
sorted batch (spec section 4.2): duplicate-hash check, bad-header check,
consensus checks on in-batch parent links, then segment construction.
At most one penalty; a penalty drops the whole batch. -/
def classifySorted (hd : HeaderDownload) (peer : Nat) (sorted : List Header) :
    Except String (List ChainSegment × Option PeerPenalty) :=
  if hasDuplicateHashes sorted then
    .ok ([], some ⟨peer, Penalty.DuplicateHeaderPenalty⟩)
  else if hasBadHeader hd.badHeaders sorted then
    .ok ([], some ⟨peer, Penalty.BadBlockPenalty⟩)
  else
    match checkLinks hd.calcDifficulty sorted sorted with
    | some pen => .ok ([], some ⟨peer, pen⟩)
    | none => .ok (segmentsOf sorted, none)

/-- Modelled from the spec: `HandleHeadersMsg` (the segment classifier,
`split_into_segments` of spec section 4.2) — sort the input by height
descending with hash tie-break, then classify.  Returns the segments and
at most one penalty; never errors. -/
def HandleHeadersMsg (hd : HeaderDownload) (msg : List Header) (peer : Nat) :
    Except String (List ChainSegment × Option PeerPenalty) :=
  classifySorted hd peer (sortHeaders msg)

/-- Modelled from the spec: the validation-and-construction pass of
`Prepend` (spec sections 4.4 and 8, scenarios 8-10).  Starting from the
tip `cur` (keyed by `curHash`), each header of the segment is attached in
turn: its height must be the current tip's height plus one
(`WrongChildBlockHeight`), its difficulty must equal
`calc_difficulty(c.timestamp, cur.timestamp, cur.difficulty,
cur.blockHeight, curHash, cur.uncleHash)` (`WrongChildDifficulty`), and
it must pass `verify_seal` (`InvalidSeal`).  A new tip inherits the
anchor parent and accumulates cumulative difficulty per invariant 3.1.
Returns the first penalty, if any, and the new tip entries built.
`nextTip` builds the tip record a header creates on top of the current
tip. -/
def nextTip (cur : Tip) (c : Header) : Tip :=
  { anchorParent := cur.anchorParent
    cumulativeDifficulty := cur.cumulativeDifficulty + c.difficulty
    timestamp := c.timestamp
    difficulty := c.difficulty
    blockHeight := c.number
    uncleHash := c.uncleHash
    noPrepend := false }

/-- Modelled from the spec: see `nextTip` above — walks the segment,
validating and building the new tip entries. -/
def attachHeaders (cdf : CalcDifficultyFunc) (vs : Header → Bool)
    (curHash : Nat) (cur : Tip) :
    List Header → Option Penalty × List (Nat × Tip)
  | [] => (none, [])
  | c :: rest =>
    if c.number = cur.blockHeight + 1 then
      if c.difficulty =
          cdf c.timestamp cur.timestamp cur.difficulty cur.blockHeight
            curHash cur.uncleHash then
        if vs c then
          ((attachHeaders cdf vs c.hash (nextTip cur c) rest).1,
            (c.hash, nextTip cur c) ::
              (attachHeaders cdf vs c.hash (nextTip cur c) rest).2)
        else (some Penalty.InvalidSealPenalty, [])
      else (some Penalty.WrongChildDifficultyPenalty, [])
    else (some Penalty.WrongChildBlockHeightPenalty, [])

/-- Modelled from the spec: `Prepend` — attach a validated chain segment
on top of an existing tip (spec sections 4.4 and 8, scenarios 8-10; the
behaviour is pinned by `TestPrepend`).  An empty segment is an error.  If
the oldest header's parent hash is not a tip, nothing happens (`false`,
no penalty).  A tip flagged `no_prepend` is never extended this way: the
attempt is a silent no-op.  A consensus violation yields the taxonomy
penalty and leaves the engine state untouched; on success all new tips
are inserted and the extended tip is kept. -/
def prependList (hd : HeaderDownload) (peer : Nat) :
    List Header → Except String (HeaderDownload × Bool × Option PeerPenalty)
  | [] => .error "empty chain segment"
  | c :: rest =>
    match hd.tips.lookup c.parentHash with
    | none => .ok (hd, false, none)
    | some t =>
      if t.noPrepend then .ok (hd, false, none)
      else
        match attachHeaders hd.calcDifficulty hd.verifySeal c.parentHash t
            (c :: rest) with
        | (some pen, _) => .ok (hd, false, some ⟨peer, pen⟩)
        | (none, newTips) =>
          .ok ({ hd with tips := newTips ++ hd.tips }, true, none)

/-- Modelled from the spec: see `prependList` above, wrapped over the
segment carrier. -/
def Prepend (hd : HeaderDownload) (seg : ChainSegment) (peer : Nat) :
    Except String (HeaderDownload × Bool × Option PeerPenalty) :=
  prependList hd peer seg.headers

/-- Modelled from the spec: `addHeaderAsTip` — seed a header as a tip
with the given anchor parent hash and cumulative difficulty (used by
`TestPrepend` to set up tips). -/
def addHeaderAsTip (hd : HeaderDownload) (h : Header) (anchorParent : Nat)
    (cumulativeDifficulty : Nat) : HeaderDownload :=
  { hd with
    tips := (h.hash,
      { anchorParent := anchorParent
        cumulativeDifficulty := cumulativeDifficulty
        timestamp := h.timestamp
        difficulty := h.difficulty
        blockHeight := h.number
        uncleHash := h.uncleHash
        noPrepend := false }) :: hd.tips }

/-- Modelled from the spec: `addHardCodedTip` — insert a hard-coded
checkpoint tip, flagged `no_prepend` (spec section 6: hard-coded records
are inserted with `no_prepend = true`). -/
def addHardCodedTip (hd : HeaderDownload) (blockHeight timestamp hash
    anchorParent cumulativeDifficulty : Nat) : HeaderDownload :=
  { hd with
    tips := (hash,
      { anchorParent := anchorParent
        cumulativeDifficulty := cumulativeDifficulty
        timestamp := timestamp
        difficulty := 0
        blockHeight := blockHeight
        uncleHash := 0
        noPrepend := true }) :: hd.tips }

/-- Sum of the difficulties of a list of headers (the "Σ difficulties on
path" of invariant 3.1). -/
def sumDifficulties (hs : List Header) : Nat :=
  (hs.map Header.difficulty).sum

/-- The difficulty function used by the tests in
`header_test.go`: child difficulty is parent difficulty plus 1000. -/
def testCalcDifficulty : CalcDifficultyFunc :=
  fun _ _ parentDifficulty _ _ _ => parentDifficulty + 1000

/-- Engine state as built by `NewHeaderDownload` in the tests: empty
bad-header set, no tips, test difficulty function, accepting seal check. -/
def testHd : HeaderDownload :=
  NewHeaderDownload testCalcDifficulty (fun _ => true)

/-- `h1` of the tests: number 1, difficulty 10. -/
def hdrA : Header := ⟨1, 0, 10, 0, 0, 0, 0⟩

/-- `h2` of the tests: number 2, difficulty 1010, parent `h1`. -/
def hdrB : Header := ⟨2, hdrA.hash, 1010, 0, 0, 0, 0⟩

/-- `h3` of `TestPrepend`: number 3, difficulty 2010, parent `h2`. -/
def hdrC : Header := ⟨3, hdrB.hash, 2010, 0, 0, 0, 0⟩

/-- `h4` of `TestPrepend`: number 4, difficulty 3010, parent `h3`. -/
def hdrD : Header := ⟨4, hdrC.hash, 3010, 0, 0, 0, 0⟩

/-- `h3` of `TestHandleHeadersMsg`: a sibling of `h2` over `h1`, made
distinct through `extra`. -/
def hdrE : Header := ⟨2, hdrA.hash, 1010, 0, 0, 0, 1⟩

/-- The child of `h1` with the wrong block height (number 3 over a
number-1 parent). -/
def hdrBadNum : Header := ⟨3, hdrA.hash, 1010, 0, 0, 0, 0⟩

/-- The child of `h1` with the wrong difficulty (2000 instead of 1010). -/
def hdrBadDiff : Header := ⟨2, hdrA.hash, 2000, 0, 0, 0, 0⟩

/-- The header `h (number=5)` used in the duplicate-header scenario. -/
def hdrDup : Header := ⟨5, 0, 0, 0, 0, 0, 0⟩

/-- The tip seeded for `h1` with cumulative difficulty 2000
(`addHeaderAsTip(&h1, h1.ParentHash, 2000)`). -/
def tipSeed : Tip := ⟨0, 2000, 0, 10, 1, 0, false⟩

/-- Engine state with the `h1` tip seeded at cumulative difficulty 2000. -/
def hdSeed : HeaderDownload := addHeaderAsTip testHd hdrA 0 2000

/-- The segment `[h2, h3, h4]` prepended onto the `h1` tip. -/
def segBCD : ChainSegment := ⟨[hdrB, hdrC, hdrD]⟩

/-- The engine state after prepending `[h2, h3, h4]` onto the seeded
`h1` tip. -/
def hdAfterBCD : HeaderDownload :=
  match Prepend hdSeed segBCD 1 with
  | .ok (s, _, _) => s
  | .error _ => hdSeed

/-- The header `h5` with the wrong block height (6 instead of 5) over
the `h4` tip, from `TestPrepend`. -/
def hdrWrongHeight : Header := ⟨6, hdrD.hash, 4010, 0, 0, 0, 0⟩

/-- Engine state with a single seeded `h4` tip at cumulative
difficulty 2000. -/
def hdSeedD : HeaderDownload := addHeaderAsTip testHd hdrD 0 2000

/-- `h7` of `TestPrepend`: the hard-coded checkpoint header with an
unknown parent hash. -/
def hdrG : Header := ⟨7, 999, 6010, 0, 0, 0, 0⟩

/-- Engine state with the hard-coded (`no_prepend`) tip for `h7`
(`addHardCodedTip(10, 5555, h7.Hash(), h7.ParentHash, 2000)`). -/
def hdHard : HeaderDownload :=
  addHardCodedTip testHd 10 5555 hdrG.hash hdrG.parentHash 2000

/-- A fully valid extension of the hard-coded tip: height 11 over the
tip's block height 10, difficulty `0 + 1000` per the test difficulty
function, passing seal. -/
def hdrH : Header := ⟨11, hdrG.hash, 1000, 0, 0, 0, 0⟩

/-! ### Helper lemmas -/

/-- Two permuted batches sort to the same list: `hdrBefore` is a total,
transitive, antisymmetric order (hashes are collision-free). -/
theorem sortHeaders_eq_of_perm {l₁ l₂ : List Header} (h : l₁.Perm l₂) :
    sortHeaders l₁ = sortHeaders l₂ :=
  List.eq_of_perm_of_sorted
    (((List.perm_insertionSort hdrBefore l₁).trans h).trans
      (List.perm_insertionSort hdrBefore l₂).symm)
    (List.sorted_insertionSort hdrBefore l₁)
    (List.sorted_insertionSort hdrBefore l₂)

/-- `hasDuplicateHashes` detects exactly the batches whose hash list is
not duplicate-free. -/
theorem hasDuplicateHashes_iff (l : List Header) :
    hasDuplicateHashes l = true ↔ ¬ (l.map Header.hash).Nodup := by
  induction l with
  | nil => simp [hasDuplicateHashes]
  | cons h rest ih =>
    simp only [hasDuplicateHashes, Bool.or_eq_true, List.any_eq_true,
      beq_iff_eq, List.map_cons, List.nodup_cons, List.mem_map, ih]
    constructor
    · rintro (⟨x, hx, he⟩ | hnd)
      · exact fun ⟨hni, _⟩ => hni ⟨x, hx, he⟩
      · exact fun ⟨_, hn⟩ => hnd hn
    · intro hcon
      by_cases hmem : ∃ x ∈ rest, x.hash = h.hash
      · exact Or.inl hmem
      · exact Or.inr fun hn => hcon ⟨fun hm => hmem hm, hn⟩

/-- A two-header batch `[p, c]` with `c.parentHash = p.hash`, distinct
hashes, no stray linkage and no bad headers is classified entirely by the
height and difficulty checks on the pair `(p, c)`. -/
theorem classifier_pair_link_penalty (hd : HeaderDownload) (p c : Header)
    (peer : Nat) (pen : Penalty)
    (hlink : c.parentHash = p.hash)
    (hne : p.hash ≠ c.hash)
    (hpp : p.parentHash ≠ p.hash)
    (hpc : p.parentHash ≠ c.hash)
    (hbadp : hd.badHeaders.contains p.hash = false)
    (hbadc : hd.badHeaders.contains c.hash = false)
    (hchk : (if c.number = p.number + 1 then
        (if c.difficulty = hd.calcDifficulty c.timestamp p.timestamp
            p.difficulty p.number p.hash p.uncleHash then none
          else some Penalty.WrongChildDifficultyPenalty)
      else some Penalty.WrongChildBlockHeightPenalty) = some pen) :
    HandleHeadersMsg hd [p, c] peer = .ok ([], some ⟨peer, pen⟩) := by
  have e_pp : (p.hash == p.parentHash) = false := by
    simp only [beq_eq_false_iff_ne]
    exact fun h => hpp h.symm
  have e_cp2 : (c.hash == p.parentHash) = false := by
    simp only [beq_eq_false_iff_ne]
    exact fun h => hpc h.symm
  have e_pc : (p.hash == c.parentHash) = true := by
    simp only [beq_iff_eq]
    exact hlink.symm
  have e_cc : (c.hash == c.parentHash) = false := by
    simp only [beq_eq_false_iff_ne]
    rw [hlink]
    exact fun h => hne h.symm
  have e_d1 : (c.hash == p.hash) = false := by
    simp only [beq_eq_false_iff_ne]
    exact fun h => hne h.symm
  have e_d2 : (p.hash == c.hash) = false := by
    simp only [beq_eq_false_iff_ne]
    exact hne
  have f_none_pc :
      List.find? (fun q => q.hash == p.parentHash) [p, c] = none := by
    rw [List.find?_cons_of_neg _ (by simp [e_pp]),
      List.find?_cons_of_neg _ (by simp [e_cp2]), List.find?_nil]
  have f_some_pc :
      List.find? (fun q => q.hash == c.parentHash) [p, c] = some p := by
    rw [List.find?_cons_of_pos _ (by simp [e_pc])]
  have f_none_cp :
      List.find? (fun q => q.hash == p.parentHash) [c, p] = none := by
    rw [List.find?_cons_of_neg _ (by simp [e_cp2]),
      List.find?_cons_of_neg _ (by simp [e_pp]), List.find?_nil]
  have f_some_cp :
      List.find? (fun q => q.hash == c.parentHash) [c, p] = some p := by
    rw [List.find?_cons_of_neg _ (by simp [e_cc]),
      List.find?_cons_of_pos _ (by simp [e_pc])]
  have hdup_pc : ¬ (hasDuplicateHashes [p, c] = true) := by
    simp only [hasDuplicateHashes, List.any_cons, List.any_nil, e_d1,
      Bool.or_self, Bool.or_false]
    exact Bool.false_ne_true
  have hdup_cp : ¬ (hasDuplicateHashes [c, p] = true) := by
    simp only [hasDuplicateHashes, List.any_cons, List.any_nil, e_d2,
      Bool.or_self, Bool.or_false]
    exact Bool.false_ne_true
  have hbad_pc : ¬ (hasBadHeader hd.badHeaders [p, c] = true) := by
    simp only [hasBadHeader, List.any_cons, List.any_nil, hbadp, hbadc,
      Bool.or_self, Bool.or_false]
    exact Bool.false_ne_true
  have hbad_cp : ¬ (hasBadHeader hd.badHeaders [c, p] = true) := by
    simp only [hasBadHeader, List.any_cons, List.any_nil, hbadp, hbadc,
      Bool.or_self, Bool.or_false]
    exact Bool.false_ne_true
  have hsort : sortHeaders [p, c] = [p, c] ∨ sortHeaders [p, c] = [c, p] := by
    unfold sortHeaders
    simp only [List.insertionSort, List.orderedInsert]
    by_cases hord : hdrBefore p c
    · left
      rw [if_pos hord]
    · right
      rw [if_neg hord]
  unfold HandleHeadersMsg classifySorted
  rcases hsort with hs | hs <;> rw [hs] <;>
    by_cases h1 : c.number = p.number + 1
  · by_cases h2 : c.difficulty = hd.calcDifficulty c.timestamp p.timestamp
        p.difficulty p.number p.hash p.uncleHash
    · rw [if_pos h1, if_pos h2] at hchk
      exact absurd hchk (by simp)
    · rw [if_pos h1, if_neg h2] at hchk
      have hpen := Option.some.inj hchk
      have hcl : checkLinks hd.calcDifficulty [p, c] [p, c] =
          some Penalty.WrongChildDifficultyPenalty := by
        simp only [checkLinks, f_none_pc, f_some_pc]
        rw [if_pos h1, if_neg h2]
      rw [if_neg hdup_pc, if_neg hbad_pc, hcl]
      subst hpen
      rfl
  · rw [if_neg h1] at hchk
    have hpen := Option.some.inj hchk
    have hcl : checkLinks hd.calcDifficulty [p, c] [p, c] =
        some Penalty.WrongChildBlockHeightPenalty := by
      simp only [checkLinks, f_none_pc, f_some_pc]
      rw [if_neg h1]
    rw [if_neg hdup_pc, if_neg hbad_pc, hcl]
    subst hpen
    rfl
  · by_cases h2 : c.difficulty = hd.calcDifficulty c.timestamp p.timestamp
        p.difficulty p.number p.hash p.uncleHash
    · rw [if_pos h1, if_pos h2] at hchk
      exact absurd hchk (by simp)
    · rw [if_pos h1, if_neg h2] at hchk
      have hpen := Option.some.inj hchk
      have hcl : checkLinks hd.calcDifficulty [c, p] [c, p] =
          some Penalty.WrongChildDifficultyPenalty := by
        simp only [checkLinks, f_some_cp]
        rw [if_pos h1, if_neg h2]
      rw [if_neg hdup_cp, if_neg hbad_cp, hcl]
      subst hpen
      rfl
  · rw [if_neg h1] at hchk
    have hpen := Option.some.inj hchk
    have hcl : checkLinks hd.calcDifficulty [c, p] [c, p] =
        some Penalty.WrongChildBlockHeightPenalty := by
      simp only [checkLinks, f_some_cp]
      rw [if_neg h1]
    rw [if_neg hdup_cp, if_neg hbad_cp, hcl]
    subst hpen
    rfl

/-! ### Claim theorems -/

/-- C8: for the empty input batch, `HandleHeadersMsg` returns zero
segments, no penalty, and no error. -/
theorem handleHeadersMsg_empty (hd : HeaderDownload) (peer : Nat) :
    HandleHeadersMsg hd [] peer = .ok ([], none) := rfl

/-- C10: calling `Prepend` with an empty chain segment returns an error
(not a penalty, not a successful no-op); the `Except.error` result
carries no successor state, so the engine state is untouched. -/
theorem prepend_empty_segment_is_error (hd : HeaderDownload) (peer : Nat) :
    Prepend hd ⟨[]⟩ peer = .error "empty chain segment" := rfl

/-- C9: `TipItem.Less` is the lexicographic order on
(cumulative difficulty, tip hash), and on items with distinct hashes
exactly one direction holds. -/
theorem tipItem_Less_lex (a b : TipItem) :
    (a.Less b = true ↔
      (a.cumulativeDifficulty < b.cumulativeDifficulty ∨
        (a.cumulativeDifficulty = b.cumulativeDifficulty ∧
          a.tipHash < b.tipHash))) ∧
    (a.tipHash ≠ b.tipHash → (a.Less b = true ↔ ¬ b.Less a = true)) := by
  constructor
  · unfold TipItem.Less
    by_cases hcd : a.cumulativeDifficulty = b.cumulativeDifficulty
    · simp [hcd]
    · simp only [if_neg hcd, decide_eq_true_eq]
      constructor
      · exact fun h => Or.inl h
      · rintro (h | ⟨he, _⟩)
        · exact h
        · exact absurd he hcd
  · intro hne
    unfold TipItem.Less
    by_cases hcd : a.cumulativeDifficulty = b.cumulativeDifficulty
    · simp only [if_pos hcd, if_pos hcd.symm, decide_eq_true_eq]
      omega
    · have hcd' : b.cumulativeDifficulty ≠ a.cumulativeDifficulty :=
        fun h => hcd h.symm
      simp only [if_neg hcd, if_neg hcd', decide_eq_true_eq]
      omega

/-- Witness for C9 at the concrete tip items `(hash 1, cd 5)` and
`(hash 2, cd 5)`. -/
theorem tipItem_Less_lex_w :
    ((⟨1, 5⟩ : TipItem).tipHash ≠ (⟨2, 5⟩ : TipItem).tipHash) ∧
    ((⟨1, 5⟩ : TipItem).Less ⟨2, 5⟩ = true ↔
      ¬ (⟨2, 5⟩ : TipItem).Less ⟨1, 5⟩ = true) :=
  ⟨by decide, (tipItem_Less_lex ⟨1, 5⟩ ⟨2, 5⟩).2 (by decide)⟩

/-- C7: the classifier's output is independent of the on-wire order of
the batch — permuted inputs give identical results. -/
theorem handleHeadersMsg_perm_invariant (hd : HeaderDownload)
    (l₁ l₂ : List Header) (peer : Nat) (h : l₁.Perm l₂) :
    HandleHeadersMsg hd l₁ peer = HandleHeadersMsg hd l₂ peer := by
  unfold HandleHeadersMsg
  rw [sortHeaders_eq_of_perm h]

/-- Witness for C7: the three-header batch `h1, h2, h3` of the tests in
forward and reverse order. -/
theorem handleHeadersMsg_perm_invariant_w :
    ([hdrA, hdrB, hdrE].Perm [hdrE, hdrB, hdrA]) ∧
    HandleHeadersMsg testHd [hdrA, hdrB, hdrE] 1 =
      HandleHeadersMsg testHd [hdrE, hdrB, hdrA] 1 :=
  ⟨(List.reverse_perm [hdrA, hdrB, hdrE]).symm,
    handleHeadersMsg_perm_invariant testHd _ _ 1
      ((List.reverse_perm [hdrA, hdrB, hdrE]).symm)⟩

/-- C5: whenever `Prepend` returns a penalty, the engine state — in
particular the tip set `hd.tips` — is exactly what it was before the
call (and nothing was prepended). -/
theorem prepend_penalty_state_unchanged (hd hd' : HeaderDownload)
    (seg : ChainSegment) (peer : Nat) (ok : Bool) (pp : PeerPenalty)
    (h : Prepend hd seg peer = .ok (hd', ok, some pp)) :
    hd'.tips = hd.tips ∧ ok = false := by
  unfold Prepend at h
  rcases hs : seg.headers with _ | ⟨c, rest⟩ <;> rw [hs] at h <;>
    simp only [prependList] at h
  · exact absurd h (by simp)
  · split at h
    · simp at h
    · split at h
      · simp at h
      · split at h
        · simp only [Except.ok.injEq, Prod.mk.injEq] at h
          exact ⟨by rw [← h.1], h.2.1.symm⟩
        · simp at h

/-- Witness for C5: prepending the wrong-height header `h5` onto a
seeded `h4` tip is penalized and leaves the tip set unchanged. -/
theorem prepend_penalty_state_unchanged_w :
    (Prepend hdSeedD ⟨[hdrWrongHeight]⟩ 1 =
      .ok (hdSeedD, false, some ⟨1, Penalty.WrongChildBlockHeightPenalty⟩)) ∧
    (hdSeedD.tips = hdSeedD.tips ∧ false = false) :=
  ⟨rfl,
    prepend_penalty_state_unchanged hdSeedD hdSeedD ⟨[hdrWrongHeight]⟩ 1
      false ⟨1, Penalty.WrongChildBlockHeightPenalty⟩ rfl⟩

/-- C6 counterexample: the hard-coded (`no_prepend`) tip for `h7` is NOT
extended by a fully valid one-header segment on top of it — `Prepend`
reports `false` with no penalty, returns the state unchanged, and no tip
keyed by the new header exists afterwards.  This refutes the claim that
the extension is still performed. -/
theorem noPrepend_tip_not_extended_cex :
    Prepend hdHard ⟨[hdrH]⟩ 1 = .ok (hdHard, false, none) ∧
    hdHard.tips.lookup hdrH.hash = none :=
  ⟨rfl, by decide⟩

/-- C6 (amended): submitting a segment whose oldest header's parent hash
equals a `no_prepend` tip's hash is a silent no-op — `Prepend` returns
`false` with no penalty and no error and the engine state unchanged. -/
theorem noPrepend_tip_silent_noop (hd : HeaderDownload) (seg : ChainSegment)
    (peer : Nat) (c : Header) (rest : List Header) (t : Tip)
    (hseg : seg.headers = c :: rest)
    (hlook : hd.tips.lookup c.parentHash = some t)
    (hflag : t.noPrepend = true) :
    Prepend hd seg peer = .ok (hd, false, none) := by
  unfold Prepend
  rw [hseg]
  simp only [prependList]
  rw [hlook]
  simp [hflag]

/-- Witness for C6 (amended) at the hard-coded `h7` tip and the valid
header on top of it. -/
theorem noPrepend_tip_silent_noop_w :
    ((⟨[hdrH]⟩ : ChainSegment).headers = [hdrH]) ∧
    (hdHard.tips.lookup hdrH.parentHash =
      some ⟨hdrG.parentHash, 2000, 5555, 0, 10, 0, true⟩) ∧
    (Prepend hdHard ⟨[hdrH]⟩ 1 = .ok (hdHard, false, none)) :=
  ⟨rfl, rfl,
    noPrepend_tip_silent_noop hdHard ⟨[hdrH]⟩ 1 hdrH []
      ⟨hdrG.parentHash, 2000, 5555, 0, 10, 0, true⟩ rfl rfl rfl⟩

/-- C2: any batch in which some header hash occurs more than once yields
no segments and a `DuplicateHeader` penalty attributed to the sending
peer, with no error. -/
theorem handleHeadersMsg_duplicate (hd : HeaderDownload) (msg : List Header)
    (peer : Nat) (hdup : ¬ (msg.map Header.hash).Nodup) :
    HandleHeadersMsg hd msg peer =
      .ok ([], some ⟨peer, Penalty.DuplicateHeaderPenalty⟩) := by
  have hperm : (sortHeaders msg).Perm msg :=
    List.perm_insertionSort hdrBefore msg
  have hdup' : ¬ ((sortHeaders msg).map Header.hash).Nodup := by
    intro hn
    exact hdup ((hperm.map Header.hash).nodup_iff.mp hn)
  have hdd : hasDuplicateHashes (sortHeaders msg) = true :=
    (hasDuplicateHashes_iff _).mpr hdup'
  unfold HandleHeadersMsg classifySorted
  rw [if_pos hdd]

/-- Witness for C2: the header `h (number=5)` submitted twice. -/
theorem handleHeadersMsg_duplicate_w :
    (¬ (([hdrDup, hdrDup].map Header.hash).Nodup)) ∧
    HandleHeadersMsg testHd [hdrDup, hdrDup] 1 =
      .ok ([], some ⟨1, Penalty.DuplicateHeaderPenalty⟩) :=
  ⟨by decide, handleHeadersMsg_duplicate testHd [hdrDup, hdrDup] 1 (by decide)⟩

/-- C4: a child adjacent to its parent in a classified segment whose
number is not the parent's number plus one draws a
`WrongChildBlockHeight` penalty and no segments. -/
theorem handleHeadersMsg_wrong_child_height (hd : HeaderDownload)
    (p c : Header) (peer : Nat)
    (hlink : c.parentHash = p.hash)
    (hne : p.hash ≠ c.hash)
    (hpp : p.parentHash ≠ p.hash)
    (hpc : p.parentHash ≠ c.hash)
    (hbadp : hd.badHeaders.contains p.hash = false)
    (hbadc : hd.badHeaders.contains c.hash = false)
    (hnum : c.number ≠ p.number + 1) :
    HandleHeadersMsg hd [p, c] peer =
      .ok ([], some ⟨peer, Penalty.WrongChildBlockHeightPenalty⟩) :=
  classifier_pair_link_penalty hd p c peer _ hlink hne hpp hpc hbadp hbadc
    (by rw [if_neg hnum])

/-- Witness for C4: `h1 (number 1)` with a child of number 3, as in
`TestHandleHeadersMsg`. -/
theorem handleHeadersMsg_wrong_child_height_w :
    (hdrBadNum.number ≠ hdrA.number + 1) ∧
    HandleHeadersMsg testHd [hdrA, hdrBadNum] 1 =
      .ok ([], some ⟨1, Penalty.WrongChildBlockHeightPenalty⟩) :=
  ⟨by decide,
    handleHeadersMsg_wrong_child_height testHd hdrA hdrBadNum 1 rfl
      (by decide) (by decide) (by decide) rfl rfl (by decide)⟩

/-- C3: a child adjacent to its parent in a classified segment whose
difficulty differs from
`calc_difficulty(c.timestamp, p.timestamp, p.difficulty, p.number,
p.hash, p.uncle_hash)` draws a `WrongChildDifficulty` penalty and no
segments. -/
theorem handleHeadersMsg_wrong_child_difficulty (hd : HeaderDownload)
    (p c : Header) (peer : Nat)
    (hlink : c.parentHash = p.hash)
    (hne : p.hash ≠ c.hash)
    (hpp : p.parentHash ≠ p.hash)
    (hpc : p.parentHash ≠ c.hash)
    (hbadp : hd.badHeaders.contains p.hash = false)
    (hbadc : hd.badHeaders.contains c.hash = false)
    (hnum : c.number = p.number + 1)
    (hdiff : c.difficulty ≠ hd.calcDifficulty c.timestamp p.timestamp
      p.difficulty p.number p.hash p.uncleHash) :
    HandleHeadersMsg hd [p, c] peer =
      .ok ([], some ⟨peer, Penalty.WrongChildDifficultyPenalty⟩) :=
  classifier_pair_link_penalty hd p c peer _ hlink hne hpp hpc hbadp hbadc
    (by rw [if_pos hnum, if_neg hdiff])

/-- Witness for C3: `h1 (difficulty 10)` with a child of difficulty
2000 where the test difficulty function expects 1010. -/
theorem handleHeadersMsg_wrong_child_difficulty_w :
    (hdrBadDiff.difficulty ≠
      testHd.calcDifficulty hdrBadDiff.timestamp hdrA.timestamp
        hdrA.difficulty hdrA.number hdrA.hash hdrA.uncleHash) ∧
    HandleHeadersMsg testHd [hdrA, hdrBadDiff] 1 =
      .ok ([], some ⟨1, Penalty.WrongChildDifficultyPenalty⟩) :=
  ⟨by decide,
    handleHeadersMsg_wrong_child_difficulty testHd hdrA hdrBadDiff 1 rfl
      (by decide) (by decide) (by decide) rfl rfl rfl (by decide)⟩

/-- Looking a key up in an appended association list stays in the left
part when the key is bound there. -/
theorem lookup_append_left {β : Type} (l₁ l₂ : List (Nat × β)) (k : Nat)
    (h : (l₁.lookup k).isSome) : (l₁ ++ l₂).lookup k = l₁.lookup k := by
  induction l₁ with
  | nil => simp at h
  | cons a tl ih =>
    rcases a with ⟨k', v⟩
    by_cases hk : (k == k') = true
    · simp only [List.cons_append, List.lookup_cons, hk]
    · have hk' : (k == k') = false := by
        cases hb : (k == k')
        · rfl
        · exact absurd hb hk
      simp only [List.lookup_cons, hk'] at h
      simp only [List.cons_append, List.lookup_cons, hk']
      exact ih h

/-- In an association list with duplicate-free keys, looking up the key
of the `i`-th entry returns the `i`-th value. -/
theorem lookup_get_of_nodup_keys {β : Type} (al : List (Nat × β))
    (hnd : (al.map Prod.fst).Nodup) :
    ∀ i (hi : i < al.length),
      al.lookup (al.get ⟨i, hi⟩).1 = some (al.get ⟨i, hi⟩).2 := by
  induction al with
  | nil =>
    intro i hi
    simp at hi
  | cons a tl ih =>
    rcases a with ⟨k', v⟩
    simp only [List.map_cons, List.nodup_cons] at hnd
    intro i hi
    cases i with
    | zero => simp
    | succ j =>
      have hj : j < tl.length := by simpa using hi
      have hget : (⟨k', v⟩ :: tl : List (Nat × β)).get ⟨j + 1, hi⟩ =
          tl.get ⟨j, hj⟩ := rfl
      rw [hget]
      have hne : ((tl.get ⟨j, hj⟩).1 == k') = false := by
        simp only [beq_eq_false_iff_ne]
        intro he
        exact hnd.1 (he ▸ List.mem_map_of_mem Prod.fst (tl.get_mem j hj))
      simp only [List.lookup_cons, hne]
      exact ih hnd.2 j hj

/-- A penalty-free `attachHeaders` run produces one tip entry per
header, keyed by the header hashes in order, and the `i`-th new tip's
cumulative difficulty is the base tip's plus the difficulties of the
first `i+1` headers (invariant 3.1). -/
theorem attachHeaders_none_spec (cdf : CalcDifficultyFunc)
    (vs : Header → Bool) :
    ∀ (hs : List Header) (curHash : Nat) (cur : Tip)
      (newTips : List (Nat × Tip)),
      attachHeaders cdf vs curHash cur hs = (none, newTips) →
      newTips.map Prod.fst = hs.map Header.hash ∧
      ∀ i (hi : i < hs.length), ∃ hi2 : i < newTips.length,
        (newTips.get ⟨i, hi2⟩).2.cumulativeDifficulty =
          cur.cumulativeDifficulty + sumDifficulties (hs.take (i + 1)) := by
  intro hs
  induction hs with
  | nil =>
    intro curHash cur newTips h
    simp only [attachHeaders] at h
    obtain ⟨-, h2⟩ := Prod.mk.injEq .. ▸ h
    constructor
    · rw [← h2]
      rfl
    · intro i hi
      simp at hi
  | cons c rest ih =>
    intro curHash cur newTips h
    simp only [attachHeaders] at h
    by_cases h1 : c.number = cur.blockHeight + 1
    · rw [if_pos h1] at h
      by_cases h2 : c.difficulty = cdf c.timestamp cur.timestamp
          cur.difficulty cur.blockHeight curHash cur.uncleHash
      · rw [if_pos h2] at h
        by_cases h3 : vs c = true
        · rw [if_pos h3] at h
          rcases ha : attachHeaders cdf vs c.hash (nextTip cur c) rest
            with ⟨pen, tl⟩
          rw [ha] at h
          simp only [Prod.mk.injEq] at h
          obtain ⟨hpen, htl⟩ := h
          rw [hpen] at ha
          obtain ⟨hkeys, hcd⟩ := ih c.hash (nextTip cur c) tl ha
          subst htl
          constructor
          · simp only [List.map_cons, hkeys]
          · intro i hi
            cases i with
            | zero =>
              refine ⟨by simp, ?_⟩
              simp [nextTip, sumDifficulties]
            | succ j =>
              have hj : j < rest.length := by simpa using hi
              obtain ⟨hj2, hcdj⟩ := hcd j hj
              refine ⟨by simpa using hj2, ?_⟩
              have hget : (((c.hash, nextTip cur c) :: tl :
                  List (Nat × Tip)).get ⟨j + 1, by simpa using hj2⟩) =
                  tl.get ⟨j, hj2⟩ := rfl
              rw [hget, hcdj]
              have htake : (c :: rest).take (j + 1 + 1) =
                  c :: rest.take (j + 1) := rfl
              rw [htake]
              have hsum : sumDifficulties (c :: rest.take (j + 1)) =
                  c.difficulty + sumDifficulties (rest.take (j + 1)) := by
                simp [sumDifficulties]
              rw [hsum]
              simp only [nextTip]
              omega
        · rw [if_neg h3] at h
          exact absurd h (by simp)
      · rw [if_neg h2] at h
        exact absurd h (by simp)
    · rw [if_neg h1] at h
      exact absurd h (by simp)

/-- C1: after a successful `Prepend` of a segment onto an existing tip
`t`, every newly created tip carries cumulative difficulty equal to
`t`'s plus the sum of the difficulties of the attached headers up to and
including it. -/
theorem prepend_cumulative_difficulty (hd hd' : HeaderDownload)
    (peer : Nat) (c : Header) (rest : List Header) (t : Tip)
    (hlook : hd.tips.lookup c.parentHash = some t)
    (hnodup : ((c :: rest).map Header.hash).Nodup)
    (hok : Prepend hd ⟨c :: rest⟩ peer = .ok (hd', true, none)) :
    ∀ i (hi : i < (c :: rest).length),
      ∃ tip, hd'.tips.lookup ((c :: rest).get ⟨i, hi⟩).hash = some tip ∧
        tip.cumulativeDifficulty =
          t.cumulativeDifficulty +
            sumDifficulties ((c :: rest).take (i + 1)) := by
  have hok' : prependList hd peer (c :: rest) = .ok (hd', true, none) := hok
  simp only [prependList] at hok'
  split at hok'
  next heq =>
    rw [hlook] at heq
    exact absurd heq (by simp)
  next t' heq =>
    rw [hlook] at heq
    have ht : t = t' := Option.some.inj heq
    subst ht
    by_cases hnp : t.noPrepend = true
    · rw [if_pos hnp] at hok'
      exact absurd hok' (by simp)
    · rw [if_neg hnp] at hok'
      rcases ha : attachHeaders hd.calcDifficulty hd.verifySeal c.parentHash t
        (c :: rest) with ⟨pen, newTips⟩
      rw [ha] at hok'
      cases pen with
      | some p => exact absurd hok' (by simp)
      | none =>
        simp only [Except.ok.injEq, Prod.mk.injEq] at hok'
        obtain ⟨hhd, -, -⟩ := hok'
        obtain ⟨hkeys, hcd⟩ :=
          attachHeaders_none_spec hd.calcDifficulty hd.verifySeal (c :: rest)
            c.parentHash t newTips ha
        intro i hi
        have hlen : newTips.length = (c :: rest).length := by
          have := congrArg List.length hkeys
          simpa using this
        obtain ⟨hi2, hcdi⟩ := hcd i hi
        refine ⟨(newTips.get ⟨i, hi2⟩).2, ?_, hcdi⟩
        have hkey : ((c :: rest).get ⟨i, hi⟩).hash = (newTips.get ⟨i, hi2⟩).1 := by
          have e1 := congrArg (fun l => l[i]?) hkeys
          simp only [List.getElem?_map] at e1
          rw [List.getElem?_eq_getElem hi2, List.getElem?_eq_getElem hi] at e1
          simp only [Option.map_some'] at e1
          rw [List.get_eq_getElem, List.get_eq_getElem]
          exact (Option.some.inj e1).symm
        rw [← hhd]
        show ((newTips ++ hd.tips).lookup ((c :: rest).get ⟨i, hi⟩).hash) = _
        rw [hkey]
        have hndk : (newTips.map Prod.fst).Nodup := by
          rw [hkeys]
          exact hnodup
        have hl := lookup_get_of_nodup_keys newTips hndk i hi2
        rw [lookup_append_left _ _ _ (by rw [hl]; rfl)]
        exact hl

/-- Witness for C1: seed a tip for `h1` with cumulative difficulty 2000,
prepend `[h2, h3, h4]` with difficulties 1010, 2010, 3010; the new `h4`
tip has cumulative difficulty `2000 + 1010 + 2010 + 3010 = 8030`. -/
theorem prepend_cumulative_difficulty_w :
    (hdSeed.tips.lookup hdrB.parentHash = some tipSeed) ∧
    ((segBCD.headers.map Header.hash).Nodup) ∧
    (Prepend hdSeed segBCD 1 = .ok (hdAfterBCD, true, none)) ∧
    (∃ tip, hdAfterBCD.tips.lookup hdrD.hash = some tip ∧
      tip.cumulativeDifficulty = 2000 + 1010 + 2010 + 3010) := by
  refine ⟨rfl, by decide, rfl, ?_⟩
  obtain ⟨tip, hl, hcd⟩ :=
    prepend_cumulative_difficulty hdSeed hdAfterBCD 1 hdrB [hdrC, hdrD]
      tipSeed rfl (by decide) rfl 2 (by decide)
  exact ⟨tip, hl, by rw [hcd]; rfl⟩

end HeaderDL
